import Mathlib

/-!
Verification of the btcc preprocessor (src/btcc.py).

The embedding models the program's pure core over `List Char` / `String`:

* `natRepr` — decimal formatting, as produced by Python's `"%d"`;
* `pyStrip` / `pyRstrip` — Python `str.strip()` / `str.rstrip()`;
* `strReplace` — Python `str.replace` (used by `App.expand_defines`);
* `MacroDef` — the `Macro` class with its per-object `expand_id` counter;
* `parseParams`, the regex matchers, `classify`, `step`, `runLines`,
  `compileScript` — `App.parse_params` and `App.compile_script`.

Python's `die` (print error and exit) is modelled by `Except.error` carrying
the exact message text; file I/O is out of scope (the spec treats it as an
external collaborator), so `compileScript` maps the input's list of lines to
the output text.
-/

/-! ### Character classes used by the source's regexes -/

/-- Python `\s` (ASCII range), also the class stripped by `str.strip()`. -/
def isPySpace (c : Char) : Bool :=
  c = ' ' || c = '\t' || c = '\n' || c = '\r' || c = '\x0b' || c = '\x0c'

/-- First character of `[_a-zA-Z][_a-zA-Z0-9]*`. -/
def isIdentStart (c : Char) : Bool :=
  c = '_' || ('a' ≤ c && c ≤ 'z') || ('A' ≤ c && c ≤ 'Z')

/-- Continuation character of `[_a-zA-Z][_a-zA-Z0-9]*`. -/
def isIdentChar (c : Char) : Bool :=
  isIdentStart c || ('0' ≤ c && c ≤ '9')

/-- The character class `[\s\$_A-Za-z0-9,]` of `RE_MACRO_START` /
`RE_MACRO_CALL`. -/
def isClassChar (c : Char) : Bool :=
  isPySpace c || c = '$' || c = '_' || ('a' ≤ c && c ≤ 'z') ||
    ('A' ≤ c && c ≤ 'Z') || ('0' ≤ c && c ≤ '9') || c = ','

/-! ### Decimal formatting, Python's `"%d"`

`decDigitsAux` is a fuel-based (hence kernel-computable) version of
`Nat.digits 10`; the fuel argument is always instantiated with the number
itself, which is enough fuel. -/

def decDigitsAux : Nat → Nat → List Nat
  | 0, _ => []
  | _ + 1, 0 => []
  | fuel + 1, n + 1 => (n + 1) % 10 :: decDigitsAux fuel ((n + 1) / 10)

/-- Decimal digits of `n`, least significant first (`[]` for `0`). -/
def decDigits (n : Nat) : List Nat := decDigitsAux n n

/-- Decimal representation of a natural number, as Python's `"%d" % n`. -/
def natRepr (n : Nat) : String :=
  if n = 0 then "0" else ⟨(decDigits n).reverse.map Nat.digitChar⟩

/-! ### Python string helpers -/

/-- Python `str.strip()`. -/
def pyStrip (s : String) : String :=
  ⟨((s.data.dropWhile isPySpace).reverse.dropWhile isPySpace).reverse⟩

/-- Python `str.rstrip()`. -/
def pyRstrip (s : String) : String :=
  ⟨(s.data.reverse.dropWhile isPySpace).reverse⟩

/-- Python `s.split(",")` on the character list (keeps empty segments). -/
def splitComma : List Char → List (List Char)
  | [] => [[]]
  | c :: rest =>
    if c = ',' then [] :: splitComma rest
    else
      match splitComma rest with
      | [] => [[c]]
      | g :: gs => (c :: g) :: gs

/-- Python `d.split("=", 1)`: split at the first `=`; `none` when absent. -/
def splitEq : List Char → Option (List Char × List Char)
  | [] => none
  | c :: rest =>
    if c = '=' then some ([], rest)
    else (splitEq rest).map (fun p => (c :: p.1, p.2))

/-- Whether `sub` occurs as a contiguous substring of `l`. -/
def containsSub (sub : List Char) : List Char → Bool
  | [] => sub.isPrefixOf []
  | c :: rest => sub.isPrefixOf (c :: rest) || containsSub sub (rest)

/-- Core loop of Python `str.replace`: scan left to right, replacing each
leftmost non-overlapping occurrence of `old` by `new` and continuing after
the consumed occurrence.  The fuel argument (instantiated with the input's
length) only serves totality; for nonempty `old` it is never exhausted. -/
def replaceAux (old new : List Char) : Nat → List Char → List Char
  | _, [] => []
  | 0, l => l
  | fuel + 1, c :: rest =>
    if old.isPrefixOf (c :: rest) then
      new ++ replaceAux old new fuel ((c :: rest).drop old.length)
    else
      c :: replaceAux old new fuel rest

/-- Python `s.replace(old, new)` (for empty `old`, Python inserts `new`
before every character and at the end). -/
def strReplace (s old new : String) : String :=
  if old.data = [] then ⟨new.data ++ (s.data.map (fun c => c :: new.data)).flatten⟩
  else ⟨replaceAux old.data new.data s.data.length s.data⟩

/-! ### Parameter parsing (`RE_PARAM`, `App.parse_params`) -/

/-- Full anchored match of `RE_PARAM = ^\$[_a-zA-Z][_a-zA-Z0-9]*$`. -/
def reParamMatch (s : String) : Bool :=
  match s.data with
  | '$' :: c :: cs => isIdentStart c && cs.all isIdentChar
  | _ => false

/-- Loop body of `App.parse_params`.  `names` mirrors the source's `names`
dict, which is created empty and — a slip in the source — never written to,
so the duplicate-parameter branch below is unreachable from `parseParams`. -/
def parseParamsGo (lineno : Nat) (names : List String) :
    List String → List String → Except String (List String)
  | params, [] => Except.ok params
  | params, arg :: rest =>
    if reParamMatch arg then
      if arg ∈ names then
        Except.error ("duplicated parameter name (" ++ arg ++ ") at line: "
          ++ natRepr lineno)
      else
        parseParamsGo lineno names (params ++ [arg]) rest
    else
      Except.error ("invalid parameter name (" ++ arg ++ ") at line: "
        ++ natRepr lineno)

/-- The stripped comma-split segments of a parameter/argument list, exactly
the `args` sequence `App.parse_params` iterates over. -/
def commaArgs (sparams : String) : List String :=
  if pyStrip sparams = "" then []
  else (splitComma (pyStrip sparams).data).map (fun g => pyStrip ⟨g⟩)

/-- `App.parse_params`. -/
def parseParams (sparams : String) (lineno : Nat) : Except String (List String) :=
  if pyStrip sparams = "" then Except.ok []
  else parseParamsGo lineno [] [] (commaArgs sparams)

/-! ### Constant table (`App.expand_defines`, `App._init_pre_defines`) -/

/-- `App.expand_defines`: one literal replacement per constant, in the
table's insertion order, single pass, no fixpoint iteration. -/
def expandDefines (line : String) (defines : List (String × String)) : String :=
  defines.foldl (fun s kv => strReplace s kv.1 kv.2) line

/-- Python `dict` assignment `d[k] = v`: updates the existing entry in place
(keeping its position) or appends a new one. -/
def dictSet (d : List (String × String)) (k v : String) : List (String × String) :=
  if (d.lookup k).isSome then d.map (fun p => if p.1 = k then (k, v) else p)
  else d ++ [(k, v)]

/-- Loop of `App._init_pre_defines`. -/
def initPreDefinesGo : List String → List (String × String) →
    Except String (List (String × String))
  | [], d => Except.ok d
  | s :: rest, d =>
    match splitEq s.data with
    | none => Except.error "ValueError: not enough values to unpack"
    | some (ks, vs) =>
      let k := pyStrip ⟨ks⟩
      let v := pyStrip ⟨vs⟩
      if k = "" || v = "" then initPreDefinesGo rest d
      else initPreDefinesGo rest (dictSet d k v)

/-- `App._init_pre_defines`; a pre-define without `=` makes Python's tuple
unpacking raise, modelled as an error. -/
def initPreDefines (l : List String) : Except String (List (String × String)) :=
  initPreDefinesGo l []

/-! ### Hygienic body-line rewriting (`RE_SUB_PARAM`, `Macro._expand_line`)

`expandLineAux` embeds the source's scan of a body line: it walks the line
exactly as `RE_SUB_PARAM.finditer` does (leftmost, non-overlapping,
maximal-munch matches of `\$([_a-zA-Z][_a-zA-Z0-9]*)`), emitting
`$<vpre><var>` for a match whose name differs from the macro's own name and
leaving a match of the macro's own name untouched — the source skips such a
match without advancing its segment start, which emits it verbatim.  The
fuel argument (instantiated with the line length) only serves totality. -/

def expandLineAux (name vpre : List Char) : Nat → List Char → List Char
  | 0, l => l
  | _ + 1, [] => []
  | fuel + 1, c :: rest =>
    if c = '$' then
      match rest with
      | [] => ['$']
      | d :: ds =>
        if isIdentStart d then
          let var := (d :: ds).takeWhile isIdentChar
          let rest' := (d :: ds).dropWhile isIdentChar
          if var = name then '$' :: var ++ expandLineAux name vpre fuel rest'
          else '$' :: (vpre ++ var) ++ expandLineAux name vpre fuel rest'
        else
          '$' :: expandLineAux name vpre fuel (d :: ds)
    else
      c :: expandLineAux name vpre fuel rest

/-- A token of the decomposition of a body line induced by
`RE_SUB_PARAM.finditer`: an unmatched character, or a matched `$var`
reference (the stored list is `var`, without the `$`). -/
inductive Tok where
  | lit (c : Char)
  | ref (v : List Char)

/-- The token decomposition of a line, computed by the same scan as
`expandLineAux`. -/
def lineTokensAux : Nat → List Char → List Tok
  | 0, l => l.map Tok.lit
  | _ + 1, [] => []
  | fuel + 1, c :: rest =>
    if c = '$' then
      match rest with
      | [] => [Tok.lit '$']
      | d :: ds =>
        if isIdentStart d then
          Tok.ref ((d :: ds).takeWhile isIdentChar)
            :: lineTokensAux fuel ((d :: ds).dropWhile isIdentChar)
        else
          Tok.lit '$' :: lineTokensAux fuel (d :: ds)
    else
      Tok.lit c :: lineTokensAux fuel rest

def lineTokens (l : List Char) : List Tok := lineTokensAux l.length l

/-- Rendering a token back to its original text. -/
def Tok.orig : Tok → List Char
  | .lit c => [c]
  | .ref v => '$' :: v

/-- Rendering a token the way `Macro._expand_line` emits it: a reference is
renamed to `$<vpre><var>` unless its name is the macro's own name, which is
left completely untouched. -/
def Tok.subst (name vpre : List Char) : Tok → List Char
  | .lit c => [c]
  | .ref v => if v = name then '$' :: v else '$' :: (vpre ++ v)

/-! ### The `Macro` class -/

structure MacroDef where
  name : String
  params : List String
  verbose : Bool
  lines : List String
  expand_id : Nat
deriving DecidableEq

/-- `Macro.__init__`. -/
def MacroDef.mkInit (name : String) (params : List String) (verbose : Bool) :
    MacroDef :=
  ⟨name, params, verbose, [], 0⟩

/-- `Macro.add`. -/
def MacroDef.add (m : MacroDef) (line : String) : MacroDef :=
  { m with lines := m.lines ++ [line] }

/-- `Macro._prefix`: the hygiene marker `"__m%d_" % expand_id`. -/
def MacroDef.prefStr (m : MacroDef) : String :=
  "__m" ++ natRepr m.expand_id ++ "_"

/-- The hygiene marker as a function of the counter value. -/
def hygienePref (k : Nat) : String := "__m" ++ natRepr k ++ "_"

/-- `Macro._expand_line`. -/
def MacroDef.expandLine (m : MacroDef) (line vpre : String) : String :=
  ⟨expandLineAux m.name.data vpre.data line.data.length line.data⟩

/-- `Macro.expand`.  Returns the expansion text together with the macro's
post-state (whose `expand_id` the source increments in place); `die` on an
argument-count mismatch is the `Except.error` case, raised before the
counter moves (the process exits there).  Python's `x[0]`/`x[1:]` on a
parameter string are `take 1`/`drop 1` on its characters. -/
def MacroDef.expand (m : MacroDef) (args : List String) (call_line : String)
    (lineno : Nat) (indent : String) : Except String (String × MacroDef) :=
  if m.params.length ≠ args.length then
    Except.error ("macro expand arguments mismatched at line: " ++ natRepr lineno)
  else
    let vpre := m.prefStr
    let ctxBegin : List String :=
      if m.verbose then ["\n" ++ indent ++ "// BEGIN: " ++ pyStrip call_line ++ "\n"]
      else []
    let binds : List String :=
      (m.params.zip args).map (fun xy =>
        indent ++ ⟨xy.1.data.take 1⟩ ++ vpre ++ ⟨xy.1.data.drop 1⟩
          ++ " = " ++ xy.2 ++ ";\n")
    let body : List String := m.lines.map (fun line => m.expandLine line vpre)
    let ctxEnd : List String :=
      if m.verbose then [indent ++ "// END: " ++ pyStrip call_line ++ "\n"]
      else []
    Except.ok (String.join (ctxBegin ++ binds ++ body ++ ctxEnd),
      { m with expand_id := m.expand_id + 1 })

/-- Repeatedly expand the same macro (threading its counter), collecting the
expansion texts; models a sequence of `expand` calls on one `Macro` object. -/
def MacroDef.expandIter (m : MacroDef) :
    List (List String × String × Nat × String) →
      Except String (List String × MacroDef)
  | [] => Except.ok ([], m)
  | (args, cl, ln, ind) :: rest =>
    match m.expand args cl ln ind with
    | Except.error e => Except.error e
    | Except.ok (out, m') =>
      match m'.expandIter rest with
      | Except.error e => Except.error e
      | Except.ok (outs, mf) => Except.ok (out :: outs, mf)

/-! ### Directive matchers

Deterministic parsers for the four anchored regexes of `App`; the greedy
character classes never overlap the literal that follows them, so maximal
munch reproduces the regex semantics on the (already `rstrip`ped) lines the
source applies them to. -/

/-- Strip a literal: `some` of the remainder when `lit` starts `l`. -/
def dropLit (lit l : List Char) : Option (List Char) :=
  if lit.isPrefixOf l then some (l.drop lit.length) else none

/-- Maximal-munch `[_a-zA-Z][_a-zA-Z0-9]*`. -/
def matchIdent (l : List Char) : Option (List Char × List Char) :=
  match l with
  | [] => none
  | c :: _ =>
    if isIdentStart c then some (l.takeWhile isIdentChar, l.dropWhile isIdentChar)
    else none

/-- `RE_MACRO_START = ^\s*%macro\s+([_a-zA-Z][_a-zA-Z0-9]*)\s*\(([\s\$_A-Za-z0-9,]*)\)$`. -/
def matchStart (s : String) : Option (String × String) :=
  match dropLit "%macro".data (s.data.dropWhile isPySpace) with
  | none => none
  | some t1 =>
    if t1.takeWhile isPySpace = [] then none
    else
      match matchIdent (t1.dropWhile isPySpace) with
      | none => none
      | some (name, t3) =>
        match t3.dropWhile isPySpace with
        | '(' :: t5 =>
          match t5.dropWhile isClassChar with
          | [')'] => some (⟨name⟩, ⟨t5.takeWhile isClassChar⟩)
          | _ => none
        | _ => none

/-- `RE_MACRO_END = ^\s*%end$`. -/
def matchEnd (s : String) : Bool :=
  match dropLit "%end".data (s.data.dropWhile isPySpace) with
  | some [] => true
  | _ => false

/-- `RE_MACRO_CALL = ^(\s+)%call\s+([_a-zA-Z][_a-zA-Z0-9]*)\s*\(([\s\$_a-zA-Z0-9,]*)\)\s*;?$`. -/
def matchCall (s : String) : Option (String × String × String) :=
  if s.data.takeWhile isPySpace = [] then none
  else
    match dropLit "%call".data (s.data.dropWhile isPySpace) with
    | none => none
    | some t1 =>
      if t1.takeWhile isPySpace = [] then none
      else
        match matchIdent (t1.dropWhile isPySpace) with
        | none => none
        | some (name, t3) =>
          match t3.dropWhile isPySpace with
          | '(' :: t5 =>
            match t5.dropWhile isClassChar with
            | ')' :: t6 =>
              match t6.dropWhile isPySpace with
              | [] => some (⟨s.data.takeWhile isPySpace⟩, ⟨name⟩,
                  ⟨t5.takeWhile isClassChar⟩)
              | [';'] => some (⟨s.data.takeWhile isPySpace⟩, ⟨name⟩,
                  ⟨t5.takeWhile isClassChar⟩)
              | _ => none
            | _ => none
          | _ => none

/-- `RE_MACRO_DEFINE = ^\s*%define\s+([_a-zA-Z][_A-Za-z0-9]*)\s+(.+)$`. -/
def matchDefine (s : String) : Option (String × String) :=
  match dropLit "%define".data (s.data.dropWhile isPySpace) with
  | none => none
  | some t1 =>
    if t1.takeWhile isPySpace = [] then none
    else
      match matchIdent (t1.dropWhile isPySpace) with
      | none => none
      | some (name, t3) =>
        if t3.takeWhile isPySpace = [] then none
        else
          match t3.dropWhile isPySpace with
          | [] => none
          | v :: vs => some (⟨name⟩, ⟨v :: vs⟩)

/-- The classification of one (`rstrip`ped) line, with the priority order of
`App.compile_script`: macro-start, macro-end, macro-call, define, plain. -/
inductive LineKind where
  | start (name sparams : String)
  | endk
  | call (indent name sargs : String)
  | define (name value : String)
  | plain
deriving DecidableEq

def classify (s : String) : LineKind :=
  match matchStart s with
  | some (n, sp) => LineKind.start n sp
  | none =>
    if matchEnd s then LineKind.endk
    else
      match matchCall s with
      | some (ind, n, sp) => LineKind.call ind n sp
      | none =>
        match matchDefine s with
        | some (n, v) => LineKind.define n v
        | none => LineKind.plain

/-! ### The compile loop (`App.compile_script`) -/

/-- The driver's mutable state.  `macros` models the `macros` dict (its
values are mutated in place by `expand`, modelled by `updateMac`); `curMac`
is `current_macro`; `context` the output buffer; `defines` the constant
table in insertion order. -/
structure CompState where
  macros : List (String × MacroDef)
  context : List String
  curMac : Option MacroDef
  defines : List (String × String)
deriving DecidableEq

/-- Write back the post-`expand` macro object under its name (the source
mutates the object aliased from the dict). -/
def updateMac (ms : List (String × MacroDef)) (k : String) (m : MacroDef) :
    List (String × MacroDef) :=
  ms.map (fun p => if p.1 = k then (k, m) else p)

/-- One iteration of the `for lineno, line in enumerate(...)` loop of
`App.compile_script`; `die` is `Except.error` with the exact message. -/
def step (verbose : Bool) (st : CompState) (lineno : Nat) (line : String) :
    Except String CompState :=
  let s := pyRstrip line
  match classify s with
  | LineKind.start name sp =>
    match st.curMac with
    | some cm =>
      Except.error ("define nested macro (" ++ name ++ ") in macro ("
        ++ cm.name ++ ") at line: " ++ natRepr lineno)
    | none =>
      match parseParams sp lineno with
      | Except.error e => Except.error e
      | Except.ok params =>
        Except.ok { st with curMac := some (MacroDef.mkInit name params verbose) }
  | LineKind.endk =>
    match st.curMac with
    | none =>
      Except.error ("macro end is mismatched macro start at line: " ++ natRepr lineno)
    | some cm =>
      if (st.macros.lookup cm.name).isSome then
        Except.error ("found duplicated macro (" ++ cm.name ++ ") at line: "
          ++ natRepr lineno)
      else
        Except.ok { st with macros := st.macros ++ [(cm.name, cm)], curMac := none }
  | LineKind.call ind name sp =>
    match parseParams sp lineno with
    | Except.error e => Except.error e
    | Except.ok args =>
      if (match st.curMac with
          | some cm => cm.name = name
          | none => false : Bool) then
        Except.error ("forbidden to call function macro (" ++ name
          ++ ") recursively at line: " ++ natRepr lineno)
      else
        match st.macros.lookup name with
        | none =>
          Except.error ("call an unknown macro (" ++ name ++ ") at line: "
            ++ natRepr lineno)
        | some em =>
          match em.expand args s lineno ind with
          | Except.error e => Except.error e
          | Except.ok (new_line, em2) =>
            match st.curMac with
            | none =>
              Except.ok { st with
                macros := updateMac st.macros name em2
                context := st.context ++ [new_line] }
            | some cm =>
              Except.ok { st with
                macros := updateMac st.macros name em2
                curMac := some (cm.add new_line) }
  | LineKind.define name value =>
    Except.ok { st with defines := dictSet st.defines name value }
  | LineKind.plain =>
    let new_line := expandDefines line st.defines
    match st.curMac with
    | none =>
      if pyStrip new_line = "" then Except.ok st
      else Except.ok { st with context := st.context ++ [new_line] }
    | some cm =>
      Except.ok { st with curMac := some (cm.add new_line) }

/-- The loop over all lines, `lineno` counting from 1 as `enumerate(_, 1)`. -/
def runLines (verbose : Bool) : CompState → Nat → List String →
    Except String CompState
  | st, _, [] => Except.ok st
  | st, lineno, line :: rest =>
    match step verbose st lineno line with
    | Except.error e => Except.error e
    | Except.ok st' => runLines verbose st' (lineno + 1) rest

/-- `App.compile_script`, from the input's lines (as `readlines` yields
them, trailing newline included) to the output text.  Note that the source
performs no end-of-input check: a macro still open when the lines run out is
silently discarded and the output is written anyway. -/
def compileScript (verbose : Bool) (predefines : List String)
    (lines : List String) : Except String String :=
  match initPreDefines predefines with
  | Except.error e => Except.error e
  | Except.ok defines =>
    match runLines verbose ⟨[], [], none, defines⟩ 1 lines with
    | Except.error e => Except.error e
    | Except.ok st => Except.ok (String.join st.context)

/-! ### Lemmas about decimal formatting -/

theorem decDigitsAux_eq_digits :
    ∀ (fuel n : Nat), n ≤ fuel → decDigitsAux fuel n = Nat.digits 10 n := by
  intro fuel
  induction fuel with
  | zero =>
    intro n hn
    have : n = 0 := Nat.le_zero.mp hn
    subst this
    simp [decDigitsAux]
  | succ f ih =>
    intro n hn
    cases n with
    | zero => simp [decDigitsAux]
    | succ k =>
      have hdiv : (k + 1) / 10 ≤ f := by
        have := Nat.div_lt_self (Nat.succ_pos k) (by norm_num : 1 < 10)
        omega
      rw [show decDigitsAux (f + 1) (k + 1)
            = (k + 1) % 10 :: decDigitsAux f ((k + 1) / 10) from rfl,
        ih ((k + 1) / 10) hdiv,
        Nat.digits_def' (by norm_num : (1 : ℕ) < 10) (Nat.succ_pos k)]

theorem decDigits_eq_digits (n : Nat) : decDigits n = Nat.digits 10 n :=
  decDigitsAux_eq_digits n n (Nat.le_refl n)

theorem digitChar_inj_below_ten :
    ∀ d, d < 10 → ∀ e, e < 10 → Nat.digitChar d = Nat.digitChar e → d = e := by
  decide

theorem map_digitChar_inj :
    ∀ (l₁ l₂ : List Nat), (∀ d ∈ l₁, d < 10) → (∀ d ∈ l₂, d < 10) →
      l₁.map Nat.digitChar = l₂.map Nat.digitChar → l₁ = l₂ := by
  intro l₁
  induction l₁ with
  | nil =>
    intro l₂ _ _ h
    cases l₂ with
    | nil => rfl
    | cons b u => simp at h
  | cons a t ih =>
    intro l₂ h₁ h₂ h
    cases l₂ with
    | nil => simp at h
    | cons b u =>
      simp only [List.map_cons, List.cons.injEq] at h
      have hab : a = b :=
        digitChar_inj_below_ten a (h₁ a (by simp)) b (h₂ b (by simp)) h.1
      have htu : t = u :=
        ih u (fun d hd => h₁ d (by simp [hd])) (fun d hd => h₂ d (by simp [hd])) h.2
      rw [hab, htu]

theorem decDigits_lt_ten (n : Nat) : ∀ d ∈ decDigits n, d < 10 := by
  intro d hd
  rw [decDigits_eq_digits] at hd
  exact Nat.digits_lt_base (by norm_num) hd

theorem natRepr_inj : ∀ m n : Nat, natRepr m = natRepr n → m = n := by
  have key : ∀ m : Nat, m ≠ 0 →
      ∀ n : Nat, n ≠ 0 → natRepr m = natRepr n → m = n := by
    intro m hm n hn h
    simp only [natRepr, if_neg hm, if_neg hn] at h
    have hdata := congrArg String.data h
    simp only at hdata
    have hrev := map_digitChar_inj (decDigits m).reverse (decDigits n).reverse
      (fun d hd => decDigits_lt_ten m d (List.mem_reverse.mp hd))
      (fun d hd => decDigits_lt_ten n d (List.mem_reverse.mp hd)) hdata
    have hdig : decDigits m = decDigits n := by
      have := congrArg List.reverse hrev
      simpa using this
    rw [decDigits_eq_digits, decDigits_eq_digits] at hdig
    calc m = Nat.ofDigits 10 (Nat.digits 10 m) := (Nat.ofDigits_digits 10 m).symm
      _ = Nat.ofDigits 10 (Nat.digits 10 n) := by rw [hdig]
      _ = n := Nat.ofDigits_digits 10 n
  have zero_case : ∀ n : Nat, n ≠ 0 → natRepr 0 ≠ natRepr n := by
    intro n hn h
    have h00 : natRepr 0 = "0" := rfl
    rw [h00, natRepr, if_neg hn] at h
    have hdata := congrArg String.data h
    simp only at hdata
    have hrev := map_digitChar_inj [0] (decDigits n).reverse
      (by decide)
      (fun d hd => decDigits_lt_ten n d (List.mem_reverse.mp hd))
      (by
        simp only [List.map_cons, List.map_nil]
        rw [show Nat.digitChar 0 = '0' from rfl]
        exact hdata)
    have hdig : decDigits n = [0] := by
      have := congrArg List.reverse hrev
      simpa using this.symm
    rw [decDigits_eq_digits] at hdig
    have : n = Nat.ofDigits 10 [0] := by
      rw [← hdig, Nat.ofDigits_digits]
    simp [Nat.ofDigits] at this
    exact hn this
  intro m n h
  by_cases hm : m = 0 <;> by_cases hn : n = 0
  · rw [hm, hn]
  · exact absurd (hm ▸ h) (zero_case n hn)
  · exact absurd (hn ▸ h.symm) (zero_case m hm)
  · exact key m hm n hn h

/-! ### Lemmas about the body-line scanner -/

theorem join_map_orig_lit :
    ∀ l : List Char, ((l.map Tok.lit).map Tok.orig).flatten = l := by
  intro l
  induction l with
  | nil => rfl
  | cons c rest ih =>
    simp only [List.map_cons, List.flatten_cons, Tok.orig]
    rw [ih]
    rfl

theorem join_map_subst_lit (name vpre : List Char) :
    ∀ l : List Char, ((l.map Tok.lit).map (Tok.subst name vpre)).flatten = l := by
  intro l
  induction l with
  | nil => rfl
  | cons c rest ih =>
    simp only [List.map_cons, List.flatten_cons, Tok.subst]
    rw [ih]
    rfl

/-- The scan underlying `Macro._expand_line` decomposes the line into
tokens: rendering the tokens unchanged reproduces the line, and
`expandLineAux` renders exactly the same tokens with every reference
`$var` rewritten per `Tok.subst`. -/
theorem scanAux_spec (name vpre : List Char) :
    ∀ (fuel : Nat) (l : List Char),
      ((lineTokensAux fuel l).map Tok.orig).flatten = l ∧
        expandLineAux name vpre fuel l
          = ((lineTokensAux fuel l).map (Tok.subst name vpre)).flatten := by
  intro fuel
  induction fuel with
  | zero =>
    intro l
    exact ⟨join_map_orig_lit l, (join_map_subst_lit name vpre l).symm⟩
  | succ f ih =>
    intro l
    cases l with
    | nil => exact ⟨rfl, rfl⟩
    | cons c rest =>
      by_cases hc : c = '$'
      · subst hc
        cases rest with
        | nil => exact ⟨rfl, rfl⟩
        | cons d ds =>
          cases hd : isIdentStart d with
          | true =>
            have eTok : lineTokensAux (f + 1) ('$' :: d :: ds)
                = if isIdentStart d = true then
                    Tok.ref ((d :: ds).takeWhile isIdentChar)
                      :: lineTokensAux f ((d :: ds).dropWhile isIdentChar)
                  else Tok.lit '$' :: lineTokensAux f (d :: ds) := rfl
            have eExp : expandLineAux name vpre (f + 1) ('$' :: d :: ds)
                = if isIdentStart d = true then
                    (if (d :: ds).takeWhile isIdentChar = name then
                      '$' :: (d :: ds).takeWhile isIdentChar
                        ++ expandLineAux name vpre f ((d :: ds).dropWhile isIdentChar)
                    else
                      '$' :: (vpre ++ (d :: ds).takeWhile isIdentChar)
                        ++ expandLineAux name vpre f ((d :: ds).dropWhile isIdentChar))
                  else '$' :: expandLineAux name vpre f (d :: ds) := rfl
            have htd := ih ((d :: ds).dropWhile isIdentChar)
            rw [eTok, eExp, hd, if_pos rfl, if_pos rfl]
            constructor
            · simp only [List.map_cons, List.flatten_cons, Tok.orig]
              rw [htd.1, List.cons_append, List.takeWhile_append_dropWhile]
            · by_cases hv : (d :: ds).takeWhile isIdentChar = name
              · rw [if_pos hv]
                simp only [List.map_cons, List.flatten_cons, Tok.subst,
                  if_pos hv]
                rw [htd.2]
              · rw [if_neg hv]
                simp only [List.map_cons, List.flatten_cons, Tok.subst,
                  if_neg hv]
                rw [htd.2]
          | false =>
            have eTok : lineTokensAux (f + 1) ('$' :: d :: ds)
                = if isIdentStart d = true then
                    Tok.ref ((d :: ds).takeWhile isIdentChar)
                      :: lineTokensAux f ((d :: ds).dropWhile isIdentChar)
                  else Tok.lit '$' :: lineTokensAux f (d :: ds) := rfl
            have eExp : expandLineAux name vpre (f + 1) ('$' :: d :: ds)
                = if isIdentStart d = true then
                    (if (d :: ds).takeWhile isIdentChar = name then
                      '$' :: (d :: ds).takeWhile isIdentChar
                        ++ expandLineAux name vpre f ((d :: ds).dropWhile isIdentChar)
                    else
                      '$' :: (vpre ++ (d :: ds).takeWhile isIdentChar)
                        ++ expandLineAux name vpre f ((d :: ds).dropWhile isIdentChar))
                  else '$' :: expandLineAux name vpre f (d :: ds) := rfl
            have htd := ih (d :: ds)
            rw [eTok, eExp, hd]
            rw [if_neg (by simp), if_neg (by simp)]
            constructor
            · simp only [List.map_cons, List.flatten_cons, Tok.orig]
              rw [htd.1]
              rfl
            · simp only [List.map_cons, List.flatten_cons, Tok.subst]
              rw [htd.2]
              rfl
      · have eTok : lineTokensAux (f + 1) (c :: rest)
            = Tok.lit c :: lineTokensAux f rest := by
          simp [lineTokensAux, hc]
        have eExp : expandLineAux name vpre (f + 1) (c :: rest)
            = c :: expandLineAux name vpre f rest := by
          simp [expandLineAux, hc]
        have htd := ih rest
        rw [eTok, eExp]
        constructor
        · simp only [List.map_cons, List.flatten_cons, Tok.orig]
          rw [htd.1]
          rfl
        · simp only [List.map_cons, List.flatten_cons, Tok.subst]
          rw [htd.2]
          rfl

/-! ### Lemmas about literal replacement -/

theorem containsSub_false_head {old : List Char} {c : Char} {rest : List Char}
    (h : containsSub old (c :: rest) = false) :
    old.isPrefixOf (c :: rest) = false ∧ containsSub old rest = false := by
  have e : containsSub old (c :: rest)
      = (old.isPrefixOf (c :: rest) || containsSub old rest) := rfl
  rw [e] at h
  exact ⟨(Bool.or_eq_false_iff.mp h).1, (Bool.or_eq_false_iff.mp h).2⟩

theorem replaceAux_no_occ (old new : List Char) :
    ∀ (l : List Char) (fuel : Nat), containsSub old l = false →
      replaceAux old new fuel l = l := by
  intro l
  induction l with
  | nil => intro fuel _; cases fuel <;> rfl
  | cons c rest ih =>
    intro fuel h
    obtain ⟨hp, ho⟩ := containsSub_false_head h
    cases fuel with
    | zero => rfl
    | succ f =>
      have e : replaceAux old new (f + 1) (c :: rest)
          = if old.isPrefixOf (c :: rest) then
              new ++ replaceAux old new f ((c :: rest).drop old.length)
            else c :: replaceAux old new f rest := rfl
      rw [e, hp]
      simp only [Bool.false_eq_true, if_false]
      rw [ih f ho]

/-- A string in which `old` does not occur is unchanged by `replace`. -/
theorem strReplace_no_occ (s old new : String)
    (h : containsSub old.data s.data = false) : strReplace s old new = s := by
  have hne : old.data ≠ [] := by
    intro he
    rw [he] at h
    cases hs : s.data with
    | nil => rw [hs] at h; simp [containsSub, List.isPrefixOf] at h
    | cons c rest => rw [hs] at h; simp [containsSub, List.isPrefixOf] at h
  unfold strReplace
  rw [if_neg hne, replaceAux_no_occ old.data new.data s.data s.data.length h]

/-- A line in which no constant's name occurs is a fixed point of
`expand_defines`. -/
theorem expandDefines_no_occ :
    ∀ (defines : List (String × String)) (line : String),
      (∀ kv ∈ defines, containsSub kv.1.data line.data = false) →
      expandDefines line defines = line := by
  intro defines
  induction defines with
  | nil => intro line _; rfl
  | cons kv rest ih =>
    intro line h
    have e : expandDefines line (kv :: rest)
        = expandDefines (strReplace line kv.1 kv.2) rest := rfl
    rw [e, strReplace_no_occ line kv.1 kv.2 (h kv (by simp))]
    exact ih line (fun p hp => h p (by simp [hp]))

/-! ### Lemmas about parameter parsing -/

theorem parseParamsGo_all_match (lineno : Nat) :
    ∀ (args acc : List String), (∀ a ∈ args, reParamMatch a = true) →
      parseParamsGo lineno [] acc args = Except.ok (acc ++ args) := by
  intro args
  induction args with
  | nil => intro acc _; simp [parseParamsGo]
  | cons a rest ih =>
    intro acc h
    have e : parseParamsGo lineno [] acc (a :: rest)
        = if reParamMatch a then
            (if a ∈ ([] : List String) then
              Except.error ("duplicated parameter name (" ++ a ++ ") at line: "
                ++ natRepr lineno)
            else parseParamsGo lineno [] (acc ++ [a]) rest)
          else
            Except.error ("invalid parameter name (" ++ a ++ ") at line: "
              ++ natRepr lineno) := rfl
    rw [e, h a (by simp), if_pos rfl, if_neg (by simp)]
    rw [ih (acc ++ [a]) (fun p hp => h p (by simp [hp]))]
    simp

/-! ### Hygiene-marker injectivity -/

theorem hygienePref_inj : ∀ i j : Nat, hygienePref i = hygienePref j → i = j := by
  intro i j h
  have e : ∀ k : Nat, (hygienePref k).data
      = "__m".data ++ ((natRepr k).data ++ "_".data) := fun k => rfl
  have hd := congrArg String.data h
  rw [e, e] at hd
  have h1 : (natRepr i).data ++ "_".data = (natRepr j).data ++ "_".data :=
    List.append_cancel_left hd
  have h2 : (natRepr i).data = (natRepr j).data := List.append_cancel_right h1
  exact natRepr_inj i j (congrArg String.mk h2)

/-- The success shape of `Macro.expand`: on success the returned macro is
the input with `expand_id` bumped by one. -/
theorem MacroDef.expand_ok_shape {m : MacroDef} {args : List String}
    {cl : String} {ln : Nat} {ind : String} {out : String} {m' : MacroDef}
    (h : m.expand args cl ln ind = Except.ok (out, m')) :
    m' = { m with expand_id := m.expand_id + 1 } := by
  by_cases hl : m.params.length ≠ args.length
  · rw [MacroDef.expand, if_pos hl] at h
    cases h
  · rw [MacroDef.expand, if_neg hl] at h
    simp only [Except.ok.injEq, Prod.mk.injEq] at h
    exact h.2.symm

/-- C1.  The hygiene counter of a macro starts at 0 (`Macro.__init__`),
each successful `expand` call bumps it by exactly one and nothing ever
resets it, the marker emitted by an expansion is `"__m<counter>_"` computed
from the counter current at that call (`Macro._prefix`), and the marker
function is injective, so the markers of distinct calls on one macro are
pairwise distinct. -/
theorem C1_hygiene_uniqueness :
    (∀ (name : String) (params : List String) (verbose : Bool),
      (MacroDef.mkInit name params verbose).expand_id = 0)
  ∧ (∀ (m : MacroDef) (args : List String) (cl : String) (ln : Nat)
        (ind out : String) (m' : MacroDef),
      m.expand args cl ln ind = Except.ok (out, m') →
        m'.expand_id = m.expand_id + 1 ∧ m.prefStr = hygienePref m.expand_id)
  ∧ (∀ i j : Nat, i ≠ j → hygienePref i ≠ hygienePref j) := by
  refine ⟨fun _ _ _ => rfl, ?_, ?_⟩
  · intro m args cl ln ind out m' h
    rw [MacroDef.expand_ok_shape h]
    exact ⟨rfl, rfl⟩
  · intro i j hij h
    exact hij (hygienePref_inj i j h)

/-- Witness for C1 at concrete inputs: a fresh macro expanded once with
matching arity, and the markers for counters 0 and 1. -/
theorem C1_witness :
    (MacroDef.mkInit "f" [] false).prefStr = hygienePref 0
  ∧ hygienePref 0 ≠ hygienePref 1 :=
  ⟨(C1_hygiene_uniqueness.2.1 (MacroDef.mkInit "f" [] false) [] "c" 1 "" ""
      (MacroDef.mk "f" [] false [] 1) rfl).2,
   C1_hygiene_uniqueness.2.2 0 1 (by decide)⟩

/-- C2.  `Macro._expand_line` decomposes a body line into the matches of
`RE_SUB_PARAM` and unmatched characters (first conjunct: rendering the
tokens unchanged reproduces the line) and emits every matched reference
`$var` as `$<prefix>var` — whether or not `var` is a formal parameter —
except that a reference whose name equals the macro's own name is left
completely untouched (`Tok.subst`, second conjunct). -/
theorem C2_expand_line_hygiene :
    ∀ (m : MacroDef) (line vpre : String),
      ((lineTokens line.data).map Tok.orig).flatten = line.data
    ∧ (m.expandLine line vpre).data
        = ((lineTokens line.data).map (Tok.subst m.name.data vpre.data)).flatten :=
  fun m line vpre => scanAux_spec m.name.data vpre.data line.data.length line.data

/-- C3.  Code behavior at the failing input: a script consisting of the
single line `"%macro f()\n"` ends with the macro still open, yet
`compile_script` performs no end-of-input check — the loop simply ends,
the pending macro (and its lines) are discarded, and the output `""` is
written with the success message.  The claim (and the spec's state machine,
which marks end-of-input in `InMacroBody` as FATAL) says this must fail
fatally with no output; the code silently succeeds. -/
theorem C3_unterminated_macro_succeeds :
    compileScript false [] ["%macro f()\n"] = Except.ok "" := rfl

/-- C4.  Code behavior at the failing input: the parameter list
`"$a, $a"` (as in `%macro f($a, $a)`) is accepted with both copies.  The
source's `parse_params` creates `names = dict()` and tests `arg in names`,
but never inserts anything into `names`, so the
`duplicated parameter name` fatal branch is unreachable — a slip, since
that dead branch and the spec both say duplicates must be rejected. -/
theorem C4_duplicate_params_accepted :
    parseParams "$a, $a" 7 = Except.ok ["$a", "$a"] := rfl

/-- C6.  `Macro.expand` fails fatally if and only if the argument count
differs from the parameter count, and the fatal message names the call's
line number; with equal counts `expand` itself always succeeds. -/
theorem C6_arity_iff :
    ∀ (m : MacroDef) (args : List String) (cl : String) (ln : Nat) (ind : String),
      ((m.expand args cl ln ind).isOk = true ↔ args.length = m.params.length)
    ∧ (args.length ≠ m.params.length →
        m.expand args cl ln ind
          = Except.error ("macro expand arguments mismatched at line: "
              ++ natRepr ln)) := by
  intro m args cl ln ind
  constructor
  · by_cases hl : m.params.length = args.length
    · rw [MacroDef.expand, if_neg (by omega)]
      constructor
      · intro _
        omega
      · intro _
        rfl
    · rw [MacroDef.expand, if_pos (by omega)]
      constructor
      · intro h
        exact Bool.noConfusion (show false = true from h)
      · intro h
        omega
  · intro hne
    rw [MacroDef.expand, if_pos (by omega)]

/-- Witness for C6: arity mismatch (one parameter, zero arguments) at
line 3 produces exactly the source's message. -/
theorem C6_witness :
    (MacroDef.mkInit "f" ["$a"] false).expand [] "c" 3 ""
      = Except.error ("macro expand arguments mismatched at line: " ++ natRepr 3) :=
  (C6_arity_iff (MacroDef.mkInit "f" ["$a"] false) [] "c" 3 "").2 (by decide)

/-- C7 counterexample.  The table `{"ab" ↦ "a"}` satisfies the claim's
condition — no constant's name occurs in any constant's value (`"ab"` does
not occur in `"a"`) — yet substitution is not idempotent on `"abb"`:
one pass gives `"ab"` (the replacement `"a"` and the leftover `"b"` join
into a fresh occurrence of the name), and a second pass gives `"a"`. -/
theorem C7_counterexample :
    containsSub "ab".data "a".data = false
  ∧ expandDefines (expandDefines "abb" [("ab", "a")]) [("ab", "a")]
      ≠ expandDefines "abb" [("ab", "a")] := by
  constructor
  · decide
  · intro h
    have h1 : expandDefines "abb" [("ab", "a")] = "ab" := rfl
    have h2 : expandDefines "ab" [("ab", "a")] = "a" := rfl
    rw [h1, h2] at h
    exact absurd h (by decide)

/-- C7 as amended.  Substitution is a single literal replacement per
constant, in insertion order, with no fixpoint iteration; it is a no-op on
any line in which no constant's name occurs.  (Idempotence on an
already-substituted line does not follow merely from no name occurring in
any value, because a replacement can create a fresh occurrence spanning
the boundary between the substituted value and the rest of the line.) -/
theorem C7_substitute_noop_without_occurrence :
    ∀ (defines : List (String × String)) (line : String),
      (∀ kv ∈ defines, containsSub kv.1.data line.data = false) →
      expandDefines line defines = line :=
  expandDefines_no_occ

/-- Witness for C7: the table `{"ab" ↦ "a"}` leaves `"xy"` unchanged. -/
theorem C7_witness : expandDefines "xy" [("ab", "a")] = "xy" :=
  C7_substitute_noop_without_occurrence [("ab", "a")] "xy" (by decide)

/-- C10.  The hygiene counter lives on each `Macro` object: the marker is
a function of the counter alone (never of the macro's name), every freshly
constructed macro starts with marker `"__m0_"`, and a run of `k` successful
expansions advances the counter by exactly `k` — so the `k`-th expansion of
any macro uses `"__m<k-1>_"`, identical across distinct macros. -/
theorem C10_per_object_counter :
    (∀ (n₁ : String) (p₁ : List String) (v₁ : Bool)
       (n₂ : String) (p₂ : List String) (v₂ : Bool),
      (MacroDef.mkInit n₁ p₁ v₁).prefStr = (MacroDef.mkInit n₂ p₂ v₂).prefStr
    ∧ (MacroDef.mkInit n₁ p₁ v₁).prefStr = "__m0_")
  ∧ (∀ m : MacroDef, m.prefStr = hygienePref m.expand_id)
  ∧ (∀ (m : MacroDef) (calls : List (List String × String × Nat × String))
       (outs : List String) (mf : MacroDef),
      m.expandIter calls = Except.ok (outs, mf) →
        mf.expand_id = m.expand_id + calls.length) := by
  refine ⟨fun _ _ _ _ _ _ => ⟨rfl, rfl⟩, fun _ => rfl, ?_⟩
  intro m calls
  induction calls generalizing m with
  | nil =>
    intro outs mf h
    have h' : Except.ok (([] : List String), m) = Except.ok (outs, mf) := h
    simp only [Except.ok.injEq, Prod.mk.injEq] at h'
    rw [← h'.2]
    rfl
  | cons c rest ih =>
    intro outs mf h
    obtain ⟨args, cl, ln, ind⟩ := c
    cases hexp : m.expand args cl ln ind with
    | error msg =>
      rw [show m.expandIter ((args, cl, ln, ind) :: rest)
          = match m.expand args cl ln ind with
            | Except.error e => Except.error e
            | Except.ok (out, m') =>
              match m'.expandIter rest with
              | Except.error e => Except.error e
              | Except.ok (outs2, mf2) => Except.ok (out :: outs2, mf2) from rfl,
        hexp] at h
      exact Except.noConfusion (show Except.error msg = Except.ok (outs, mf) from h)
    | ok p =>
      obtain ⟨out, m'⟩ := p
      rw [show m.expandIter ((args, cl, ln, ind) :: rest)
          = match m.expand args cl ln ind with
            | Except.error e => Except.error e
            | Except.ok (out, m') =>
              match m'.expandIter rest with
              | Except.error e => Except.error e
              | Except.ok (outs2, mf2) => Except.ok (out :: outs2, mf2) from rfl,
        hexp] at h
      have h2 : (match m'.expandIter rest with
          | Except.error e => Except.error e
          | Except.ok (outs2, mf2) => Except.ok (out :: outs2, mf2))
            = Except.ok (outs, mf) := h
      cases hiter : m'.expandIter rest with
      | error msg =>
        rw [hiter] at h2
        exact Except.noConfusion (show Except.error msg = Except.ok (outs, mf) from h2)
      | ok q =>
        obtain ⟨outs', mf'⟩ := q
        rw [hiter] at h2
        have h3 : Except.ok (out :: outs', mf') = Except.ok (outs, mf) := h2
        simp only [Except.ok.injEq, Prod.mk.injEq] at h3
        have hm' : m' = { m with expand_id := m.expand_id + 1 } :=
          MacroDef.expand_ok_shape hexp
        have hih := ih m' outs' mf' hiter
        rw [← h3.2, hih, hm']
        show m.expand_id + 1 + rest.length = m.expand_id + ((args, cl, ln, ind) :: rest).length
        simp only [List.length_cons]
        omega

/-- Witness for C10: one successful expansion of a fresh macro advances
the counter from 0 to 1. -/
theorem C10_witness :
    (MacroDef.mk "f" [] false [] 1).expand_id
      = (MacroDef.mkInit "f" [] false).expand_id + 1 := by
  have h := C10_per_object_counter.2.2 (MacroDef.mkInit "f" [] false)
    [([], "c", 1, "")] [""] (MacroDef.mk "f" [] false [] 1) rfl
  simpa using h

/-- C5 counterexample.  After `%define A B` a macro body line `"A\n"` is
stored as `"B\n"`: constant substitution is applied when the body line is
collected, not verbatim as the claim states (and a `%define` issued after
the definition would never reach the stored body at call time). -/
theorem C5_counterexample :
    runLines false ⟨[], [], none, []⟩ 1 ["%define A B\n", "%macro f()\n", "A\n"]
      = Except.ok ⟨[], [], some (MacroDef.mk "f" [] false ["B\n"] 0), [("A", "B")]⟩
  ∧ ("B\n" : String) ≠ "A\n" := by
  constructor
  · rfl
  · decide

/-- C5 as amended.  A plain line collected while a macro is open is stored
after constant substitution with the define table current at collection
time (first conjunct); a top-level `%call` appends the expansion text to
the output exactly as `expand` produced it, with no constant substitution
applied at call time (second conjunct). -/
theorem C5_defines_applied_at_collection :
    (∀ (v : Bool) (st : CompState) (lineno : Nat) (line : String) (cm : MacroDef),
      st.curMac = some cm →
      classify (pyRstrip line) = LineKind.plain →
      step v st lineno line
        = Except.ok { st with curMac := some (cm.add (expandDefines line st.defines)) })
  ∧ (∀ (v : Bool) (st : CompState) (lineno : Nat) (line ind nm sp : String)
       (args : List String) (em : MacroDef) (out : String) (em2 : MacroDef),
      st.curMac = none →
      classify (pyRstrip line) = LineKind.call ind nm sp →
      parseParams sp lineno = Except.ok args →
      st.macros.lookup nm = some em →
      em.expand args (pyRstrip line) lineno ind = Except.ok (out, em2) →
      step v st lineno line
        = Except.ok { st with
            macros := updateMac st.macros nm em2
            context := st.context ++ [out] }) := by
  constructor
  · intro v st lineno line cm hcur hclass
    simp only [step, hclass, hcur]
  · intro v st lineno line ind nm sp args em out em2 hcur hclass hparse hlook hexp
    simp only [step, hclass, hparse, hcur, hlook, hexp]
    rfl

/-- Witness for C5 at concrete inputs: a body line `"A\n"` collected under
`%define A B` is stored as `"B\n"`, and a top-level call appends the
expansion text unchanged. -/
theorem C5_witness :
    step false ⟨[], [], some (MacroDef.mkInit "f" [] false), [("A", "B")]⟩ 3 "A\n"
      = Except.ok ⟨[], [], some (MacroDef.mk "f" [] false ["B\n"] 0), [("A", "B")]⟩
  ∧ step false ⟨[("g", MacroDef.mkInit "g" [] false)], [], none, []⟩ 4 " %call g()\n"
      = Except.ok ⟨[("g", MacroDef.mk "g" [] false [] 1)], [""], none, []⟩ :=
  ⟨C5_defines_applied_at_collection.1 false
      ⟨[], [], some (MacroDef.mkInit "f" [] false), [("A", "B")]⟩ 3 "A\n"
      (MacroDef.mkInit "f" [] false) rfl rfl,
   C5_defines_applied_at_collection.2 false
      ⟨[("g", MacroDef.mkInit "g" [] false)], [], none, []⟩ 4 " %call g()\n"
      " " "g" "" [] (MacroDef.mkInit "g" [] false) ""
      (MacroDef.mk "g" [] false [] 1) rfl rfl rfl rfl rfl⟩

/-- C8 counterexample.  A call of the registered one-parameter macro `f`
with the single comma-separated argument `42` — free text but not a
`$identifier` — is rejected fatally by the same `parse_params` validation
used for formal parameters, so call arguments are not accepted as-is. -/
theorem C8_counterexample :
    compileScript false [] ["%macro f($a)\n", "%end\n", " %call f(42)\n"]
      = Except.error "invalid parameter name (42) at line: 3" := rfl

/-- C8 as amended.  The arguments of a `%call` are comma-split and
whitespace-stripped, and each must match the parameter pattern
`^\$[_a-zA-Z][_a-zA-Z0-9]*$` (the source routes call arguments through
`parse_params`); whenever every stripped segment matches, the argument
list is accepted exactly as those segments. -/
theorem C8_call_args_validated :
    ∀ (sp : String) (lineno : Nat),
      (∀ a ∈ commaArgs sp, reParamMatch a = true) →
      parseParams sp lineno = Except.ok (commaArgs sp) := by
  intro sp lineno h
  by_cases he : pyStrip sp = ""
  · rw [parseParams, if_pos he, commaArgs, if_pos he]
  · rw [parseParams, if_neg he]
    exact parseParamsGo_all_match lineno (commaArgs sp) [] h

/-- Witness for C8: two well-formed arguments are accepted as given. -/
theorem C8_witness : parseParams "$x, $y" 5 = Except.ok ["$x", "$y"] :=
  C8_call_args_validated "$x, $y" 5 (by decide)

/-- C9.  A line whose (rstripped) text begins with `%call` in column zero
is never a macro call: `RE_MACRO_CALL` demands at least one character of
leading whitespace (`^(\s+)`), and none of the other directive patterns can
match text starting with `%call`, so the line is classified plain and — at
top level — emitted after constant substitution (or dropped if blank),
never expanded. -/
theorem C9_column_zero_call_is_plain :
    ∀ (v : Bool) (st : CompState) (lineno : Nat) (line : String) (t : List Char),
      (pyRstrip line).data = '%' :: 'c' :: 'a' :: 'l' :: 'l' :: t →
      st.curMac = none →
      classify (pyRstrip line) = LineKind.plain
    ∧ step v st lineno line
        = if pyStrip (expandDefines line st.defines) = "" then Except.ok st
          else Except.ok { st with
            context := st.context ++ [expandDefines line st.defines] } := by
  intro v st lineno line t hs hcur
  have hse : pyRstrip line = ⟨'%' :: 'c' :: 'a' :: 'l' :: 'l' :: t⟩ :=
    congrArg String.mk hs
  have hcl : classify (pyRstrip line) = LineKind.plain := by
    rw [hse]
    rfl
  refine ⟨hcl, ?_⟩
  simp only [step, hcl, hcur]

/-- Witness for C9: the line `"%call f()\n"` (no indentation) is plain and
is emitted verbatim instead of being expanded. -/
theorem C9_witness :
    classify (pyRstrip "%call f()\n") = LineKind.plain
  ∧ step false ⟨[], [], none, []⟩ 1 "%call f()\n"
      = Except.ok ⟨[], ["%call f()\n"], none, []⟩ := by
  have h := C9_column_zero_call_is_plain false ⟨[], [], none, []⟩ 1 "%call f()\n"
    (' ' :: 'f' :: '(' :: ')' :: []) rfl rfl
  exact ⟨h.1, h.2⟩
